import Mathlib

/-!
# A shallow embedding of the siasync synchronization engine

This file embeds the core of `siafolder.go` and `utils.go` in Lean:
the in-memory file/directory index, the startup reconciliation
(`uploadNonExisting`, `uploadChanged`), the live event handlers
(`handleCreate`, `handleFileWrite`, `handleRemove`, `uploadRetry`,
`isFile`), and the promotion loop (`moveToProductionLoop`,
`moveToProduction`, `getStagingSiaDir`).

Remote paths are plain strings; `filepath.Join` is modelled for clean,
nonempty components as `a ++ "/" ++ b`.  The Go `map[string]string`
file index is modelled as an association list whose update operation
moves the key to the front.  Remote calls issued by the code are
collected in a trace (`RemoteCall`); the fallible Sia client is a
record of error oracles, one per endpoint.  Aggregate redundancy
scores (float64 in Go) are modelled as rationals: the only operation
performed on them is an order comparison with 1.
-/

namespace Siasync

/-- Character-list containment (models Go `strings.Contains`). -/
def charListContains (sub : List Char) : List Char → Bool
  | [] => sub.isEmpty
  | c :: rest => sub.isPrefixOf (c :: rest) || charListContains sub rest

/-- Models Go `strings.HasPrefix s pre`. -/
def strStartsWith (s pre : String) : Bool :=
  pre.data.isPrefixOf s.data

/-- Models Go `strings.Contains s sub`. -/
def strContains (s sub : String) : Bool :=
  charListContains sub.data s.data

/-- Character-count length of a string. -/
def strLen (s : String) : Nat := s.data.length

/-- Drop the first `n` characters of a string. -/
def strDrop (s : String) (n : Nat) : String := String.mk (s.data.drop n)

/-- Models `filepath.Join` for clean, nonempty components. -/
def joinPath (a b : String) : String := a ++ "/" ++ b

/-- Models `filepath.Abs` for already-clean paths: a relative path is
resolved against the working directory. -/
def filepathAbs (cwd p : String) : String :=
  if strStartsWith p "/" then p else joinPath cwd p

/-- Models `filepath.Rel base p` for clean paths: succeeds when `p`
equals `base` or lies below it, errors otherwise. -/
def filepathRel (base p : String) : Option String :=
  if p = base then some "."
  else if strStartsWith p (base ++ "/") then some (strDrop p (strLen base + 1))
  else none

/-- Static configuration: the package-level flag variables read by
`siafolder.go` (`siaStagingDir`, `siaProdDir`, `archive`, `dryRun`,
`movieDir`, `tvDir`).  Their declarations live outside the given
sources; the spec lists them as the configuration surface. -/
structure Config where
  siaStagingDir : String
  siaProdDir : String
  archive : Bool
  dryRun : Bool
  movieDir : String
  tvDir : String
deriving DecidableEq

/-- Models `getSiaPath` from `utils.go`: the staging prefix is joined
in front of the relative path. -/
def getSiaPath (cfg : Config) (relpath : String) : String :=
  joinPath cfg.siaStagingDir relpath

/-- A remote file as reported by `RenterFilesGet`: its sia path and
its file size. -/
structure RemoteFile where
  path : String
  filesize : Nat
deriving DecidableEq

/-- One entry of the directory-health listing returned by
`RenterGetDir`: a sia path and its aggregate minimum redundancy. -/
structure DirInfo where
  siaPath : String
  aggregateMinRedundancy : ℚ
deriving DecidableEq

/-- The remote mutations and queries issued through the Sia client. -/
inductive RemoteCall where
  | upload (localAbs : String) (siaPath : String)
  | delete (siaPath : String)
  | rename (oldPath : String) (newPath : String)
  | fileGet (siaPath : String)
deriving DecidableEq

/-- Error oracles for the Sia client endpoints: `none` means the call
succeeds, `some msg` that it returns an error with message `msg`. -/
structure Client where
  uploadErr : String → String → Option String
  deleteErr : String → Option String
  fileGetErr : String → Option String
  renameErr : String → String → Option String

/-- A client whose calls all succeed. -/
def okClient : Client :=
  ⟨fun _ _ => none, fun _ => none, fun _ => none, fun _ _ => none⟩

/-- The `files` field of `SiaFolder`: a `map[string]string` from file
path to checksum, modelled as an association list. -/
abbrev FilesMap : Type := List (String × String)

/-- Go map read `m[k]`. -/
def lookupAssoc (m : FilesMap) (k : String) : Option String :=
  match m.find? (fun p => decide (p.1 = k)) with
  | some p => some p.2
  | none => none

/-- Go map write `m[k] = v`. -/
def setAssoc (m : FilesMap) (k v : String) : FilesMap :=
  (k, v) :: m.filter (fun p => decide (p.1 ≠ k))

/-- Go map delete `delete(m, k)`. -/
def eraseAssoc (m : FilesMap) (k : String) : FilesMap :=
  m.filter (fun p => decide (p.1 ≠ k))

/-- The keys of the file index, in iteration order. -/
def assocKeys (m : FilesMap) : List String := m.map Prod.fst

/-- The local filesystem as seen through `os.Stat`: a partial map from
path to file size (`none` = stat error). -/
abbrev LocalFs : Type := String → Option Nat

/-- Models `sizeFile` from `utils.go`: the decimal rendering of the
file size reported by `os.Stat`. -/
def sizeFile (fs : LocalFs) (path : String) : Option String :=
  match fs path with
  | none => none
  | some n => some (toString n)

/-- Models `checksumFile` from `utils.go`, which delegates to
`sizeFile`. -/
def checksumFile (fs : LocalFs) (path : String) : Option String :=
  sizeFile fs path

/-- Result of a handler: the remote calls it issued (in order), the
file index after the call, and the error it returned, if any. -/
abbrev HandlerResult : Type := List RemoteCall × FilesMap × Option String

/-- Models `SiaFolder.handleCreate`: resolve the absolute and relative
paths; unless dry-running, upload the local file to its
staging-namespace sia path; then record the file's checksum in the
index.  On any error the index is left unchanged. -/
def handleCreate (cfg : Config) (cl : Client) (fs : LocalFs) (root cwd : String)
    (files : FilesMap) (file : String) : HandlerResult :=
  let abspath := filepathAbs cwd file
  match filepathRel root file with
  | none => ([], files, some ("error getting relative path to upload: " ++ file))
  | some relpath =>
    let target := getSiaPath cfg relpath
    let calls := if cfg.dryRun then [] else [RemoteCall.upload abspath target]
    let upErr := if cfg.dryRun then none else cl.uploadErr abspath target
    match upErr with
    | some e => (calls, files, some ("error uploading " ++ file ++ ": " ++ e))
    | none =>
      match checksumFile fs file with
      | none => (calls, files, some ("error stating " ++ file))
      | some checksum => (calls, setAssoc files file checksum, none)

/-- Models `SiaFolder.handleRemove`: resolve the relative path; unless
dry-running, issue the remote delete on the staging-namespace sia
path; the index entry is dropped only after the delete call did not
error. -/
def handleRemove (cfg : Config) (cl : Client) (root : String)
    (files : FilesMap) (file : String) : HandlerResult :=
  match filepathRel root file with
  | none => ([], files, some ("error getting relative path to remove: " ++ file))
  | some relpath =>
    if cfg.dryRun then ([], eraseAssoc files file, none)
    else
      let target := getSiaPath cfg relpath
      match cl.deleteErr target with
      | some e => ([RemoteCall.delete target], files, some ("error removing " ++ file ++ ": " ++ e))
      | none => ([RemoteCall.delete target], eraseAssoc files file, none)

/-- Models `SiaFolder.handleFileWrite`: checksum the file; when the
path is indexed with a different checksum, record the new checksum,
remove the old remote object unless in archive mode, and re-upload. -/
def handleFileWrite (cfg : Config) (cl : Client) (fs : LocalFs) (root cwd : String)
    (files : FilesMap) (file : String) : HandlerResult :=
  match checksumFile fs file with
  | none => ([], files, some ("error stating " ++ file))
  | some checksum =>
    match lookupAssoc files file with
    | none => ([], files, none)
    | some oldChecksum =>
      if oldChecksum = checksum then ([], files, none)
      else
        let files1 := setAssoc files file checksum
        if cfg.archive = false then
          match handleRemove cfg cl root files1 file with
          | (c1, files2, some e) => (c1, files2, some e)
          | (c1, files2, none) =>
            match handleCreate cfg cl fs root cwd files2 file with
            | (c2, files3, e2) => (c1 ++ c2, files3, e2)
        else
          handleCreate cfg cl fs root cwd files1 file

/-- Models `SiaFolder.isFile`: query `RenterFileGet` on the bare
relative path (note: without the staging prefix); the file is reported
absent only when the query errors with a message containing
"no file known"; the query's own error is swallowed.  The returned
triple is (calls, exists, error). -/
def isFile (cl : Client) (root file : String) : List RemoteCall × Bool × Option String :=
  match filepathRel root file with
  | none => ([], false, some ("error getting relative path: " ++ file))
  | some relpath =>
    let ex :=
      match cl.fileGetErr relpath with
      | some msg => !(strContains msg "no file known")
      | none => true
    ([RemoteCall.fileGet relpath], ex, none)

/-- Models `uploadRetry` from `utils.go`: try `handleCreate`; on
failure ask `isFile` whether the remote already has the file (its
error, if any, is only logged), delete the remote copy when it exists
and archive mode is off (a delete error is only logged), and retry
`handleCreate` once (its error is only logged). -/
def uploadRetry (cfg : Config) (cl : Client) (fs : LocalFs) (root cwd : String)
    (files : FilesMap) (file : String) : List RemoteCall × FilesMap :=
  match handleCreate cfg cl fs root cwd files file with
  | (c1, files1, none) => (c1, files1)
  | (c1, _, some _) =>
    match isFile cl root file with
    | (c2, ex, _) =>
      let step3 :=
        if ex && !cfg.archive then
          match handleRemove cfg cl root files file with
          | (cr, fr, _) => (cr, fr)
        else ([], files)
      match handleCreate cfg cl fs root cwd step3.2 file with
      | (c4, files3, _) => (c1 ++ c2 ++ step3.1 ++ c4, files3)

/-- Models `SiaFolder.getSiaFiles`: filter the remote listing with the
two negated `strings.HasPrefix` tests from the source (`staging :=
!HasPrefix(path, siaStagingDir+"/")`, `production := !HasPrefix(path,
siaProdDir+"/")`, keep when `staging || production`). -/
def getSiaFiles (cfg : Config) (remote : List RemoteFile) : List RemoteFile :=
  remote.filter (fun f =>
    (!(strStartsWith f.path (cfg.siaStagingDir ++ "/"))) ||
    (!(strStartsWith f.path (cfg.siaProdDir ++ "/"))))

/-- Models `SiaFolder.getStagingSiaFiles`: keep a remote file when
`staging := !HasPrefix(path, siaStagingDir+"/")` holds. -/
def getStagingSiaFiles (cfg : Config) (remote : List RemoteFile) : List RemoteFile :=
  remote.filter (fun f => !(strStartsWith f.path (cfg.siaStagingDir ++ "/")))

/-- Loop body of `SiaFolder.uploadNonExisting` over the keys of the
file index: a key missing from the pre-fetched `listing` under its
staging mapping is uploaded via `handleCreate`; the first error aborts
the remaining keys. -/
def uploadNonExistingGo (cfg : Config) (cl : Client) (fs : LocalFs) (root cwd : String)
    (listing : List RemoteFile) : List String → FilesMap → HandlerResult
  | [], files => ([], files, none)
  | f :: rest, files =>
    match filepathRel root f with
    | none => ([], files, some ("error getting relative path: " ++ f))
    | some relpath =>
      if listing.any (fun sf => decide (sf.path = getSiaPath cfg relpath)) then
        uploadNonExistingGo cfg cl fs root cwd listing rest files
      else
        match handleCreate cfg cl fs root cwd files f with
        | (c, files1, some e) => (c, files1, some e)
        | (c, files1, none) =>
          match uploadNonExistingGo cfg cl fs root cwd listing rest files1 with
          | (cs, files2, err) => (c ++ cs, files2, err)

/-- Models `SiaFolder.uploadNonExisting`: fetch the (mis)filtered
remote listing once, then upload every indexed file whose staging
mapping is absent from it. -/
def uploadNonExisting (cfg : Config) (cl : Client) (fs : LocalFs) (root cwd : String)
    (files : FilesMap) (remote : List RemoteFile) : HandlerResult :=
  uploadNonExistingGo cfg cl fs root cwd (getSiaFiles cfg remote) (assocKeys files) files

/-- Loop body of `SiaFolder.uploadChanged` over the keys of the file
index: for the first listing entry matching the key's staging mapping,
overwrite the recorded checksum with the remote-reported size and run
`handleFileWrite`; the first error aborts the remaining keys. -/
def uploadChangedGo (cfg : Config) (cl : Client) (fs : LocalFs) (root cwd : String)
    (listing : List RemoteFile) : List String → FilesMap → HandlerResult
  | [], files => ([], files, none)
  | f :: rest, files =>
    match filepathRel root f with
    | none => ([], files, some ("error getting relative path: " ++ f))
    | some relpath =>
      match listing.find? (fun sf => decide (sf.path = getSiaPath cfg relpath)) with
      | none => uploadChangedGo cfg cl fs root cwd listing rest files
      | some sf =>
        let files1 := setAssoc files f (toString sf.filesize)
        match handleFileWrite cfg cl fs root cwd files1 f with
        | (c, files2, some e) => (c, files2, some e)
        | (c, files2, none) =>
          match uploadChangedGo cfg cl fs root cwd listing rest files2 with
          | (cs, files3, err) => (c ++ cs, files3, err)

/-- Models `SiaFolder.uploadChanged`: fetch the (mis)filtered staging
listing once, then reconcile every indexed file that has a counterpart
in it. -/
def uploadChanged (cfg : Config) (cl : Client) (fs : LocalFs) (root cwd : String)
    (files : FilesMap) (remote : List RemoteFile) : HandlerResult :=
  uploadChangedGo cfg cl fs root cwd (getStagingSiaFiles cfg remote) (assocKeys files) files

/-- Effect of one issued call on the remote store's file listing: an
upload adds an object under the target sia path (with the local file's
size), a delete removes it; queries change nothing. -/
def applyCall (fs : LocalFs) (remote : List RemoteFile) : RemoteCall → List RemoteFile
  | RemoteCall.upload localAbs siaPath => remote ++ [⟨siaPath, (fs localAbs).getD 0⟩]
  | RemoteCall.delete siaPath => remote.filter (fun f => decide (f.path ≠ siaPath))
  | RemoteCall.rename _ _ => remote
  | RemoteCall.fileGet _ => remote

/-- Effect of a call trace on the remote store. -/
def applyCalls (fs : LocalFs) (remote : List RemoteFile) (cs : List RemoteCall) : List RemoteFile :=
  cs.foldl (applyCall fs) remote

/-- Outcome of one startup reconciliation. -/
structure ReconcileResult where
  calls : List RemoteCall
  files : FilesMap
  remote : List RemoteFile
  err : Option String

/-- The startup reconciliation sequence of `NewSiafolder`:
`uploadNonExisting` followed by `uploadChanged`, threading the file
index and the remote store state (an error aborts the sequence, as in
the source). -/
def reconcile (cfg : Config) (cl : Client) (fs : LocalFs) (root cwd : String)
    (files : FilesMap) (remote : List RemoteFile) : ReconcileResult :=
  match uploadNonExisting cfg cl fs root cwd files remote with
  | (c1, files1, some e) => ⟨c1, files1, applyCalls fs remote c1, some e⟩
  | (c1, files1, none) =>
    let remote1 := applyCalls fs remote c1
    match uploadChanged cfg cl fs root cwd files1 remote1 with
    | (c2, files2, e2) => ⟨c1 ++ c2, files2, applyCalls fs remote1 c2, e2⟩

/-- `true` exactly on upload calls. -/
def isUploadCall : RemoteCall → Bool
  | RemoteCall.upload _ _ => true
  | _ => false

/-- Models `modules.SiaPath.Rebase`: the path must equal the old base
or lie under it; the suffix is re-attached to the new base. -/
def rebase (oldBase newBase p : String) : Option String :=
  if p = oldBase then some newBase
  else if strStartsWith p (oldBase ++ "/") then
    some (joinPath newBase (strDrop p (strLen oldBase + 1)))
  else none

/-- Models `SiaFolder.moveToProduction`: rebase the directory's sia
path from `getSiaPath(siaStagingDir)` to `getSiaPath(siaProdDir)` (the
source passes both flag values through `getSiaPath`, which prepends
the staging prefix once more) and issue the rename; a rebase error
means no call is issued. -/
def moveToProduction (cfg : Config) (dir : String) : Option RemoteCall :=
  match rebase (getSiaPath cfg cfg.siaStagingDir) (getSiaPath cfg cfg.siaProdDir) dir with
  | none => none
  | some newSiaPath => some (RemoteCall.rename dir newSiaPath)

/-- Loop body of `moveToProductionLoop` over one health listing with
its running index: index 0 is skipped, an entry with aggregate minimum
redundancy `≤ 1` is skipped, every other entry is handed to
`moveToProduction` (whose error is only logged). -/
def processListingGo (cfg : Config) : Nat → List DirInfo → List RemoteCall
  | _, [] => []
  | i, d :: rest =>
    (if i = 0 then []
     else if d.aggregateMinRedundancy ≤ 1 then []
     else (moveToProduction cfg d.siaPath).toList) ++
    processListingGo cfg (i + 1) rest

/-- The calls issued for one health listing during one tick of
`moveToProductionLoop`. -/
def processListing (cfg : Config) (dirs : List DirInfo) : List RemoteCall :=
  processListingGo cfg 0 dirs

/-- The sia path queried by `SiaFolder.getStagingSiaDir` for a given
category subdirectory: the source ignores its `subdir` argument and
always queries `getSiaPath(filepath.Join(siaStagingDir, movieDir))`. -/
def getStagingSiaDirQuery (cfg : Config) (subdir : String) : String :=
  getSiaPath cfg (joinPath cfg.siaStagingDir cfg.movieDir)

/-- Models `SiaFolder.getStagingSiaDir`: issue `RenterGetDir` on the
query path; `getDir` is the remote store's directory-health oracle. -/
def getStagingSiaDir (cfg : Config) (getDir : String → Except String (List DirInfo))
    (subdir : String) : Except String (List DirInfo) :=
  getDir (getStagingSiaDirQuery cfg subdir)

/-- One tick of `moveToProductionLoop`: fetch and process the movies
category, then the tv category; a fetch error ends the tick (`continue`
in the source skips everything that follows). -/
def moveToProductionTick (cfg : Config) (getDir : String → Except String (List DirInfo)) :
    List RemoteCall :=
  match getStagingSiaDir cfg getDir cfg.movieDir with
  | Except.error _ => []
  | Except.ok moviesListing =>
    let c1 := processListing cfg moviesListing
    match getStagingSiaDir cfg getDir cfg.tvDir with
    | Except.error _ => c1
    | Except.ok tvListing => c1 ++ processListing cfg tvListing

/-- Reference rendering of the spec's promotion rule, used to compare
with `processListing`: every entry other than the first whose
aggregate minimum redundancy strictly exceeds 1 is renamed from its
own path to the path obtained by exchanging `oldBase` for `newBase`
and keeping the suffix. -/
def promotedPerSpecGo (oldBase newBase : String) : Nat → List DirInfo → List RemoteCall
  | _, [] => []
  | i, d :: rest =>
    (if i ≠ 0 ∧ 1 < d.aggregateMinRedundancy then
      [RemoteCall.rename d.siaPath (joinPath newBase (strDrop d.siaPath (strLen oldBase + 1)))]
     else []) ++
    promotedPerSpecGo oldBase newBase (i + 1) rest

/-- One entry of the startup `filepath.Walk`: the visited path,
whether it is a directory, and its stat size. -/
structure WalkEntry where
  path : String
  isDir : Bool
  size : Nat
deriving DecidableEq

/-- The state seeded by `NewSiafolder` before reconciliation: the file
index, the `dirs` map, and the watcher's watch set. -/
structure WalkState where
  files : FilesMap
  dirs : List (String × Bool)
  watched : List String
deriving DecidableEq

/-- The walk callback of `NewSiafolder` applied to the walk entries in
visit order: an entry equal to the original `path` argument (before
`filepath.Abs`!) is skipped; a directory is added to the watcher and
to the `dirs` map; a file's checksum is recorded in the index.  The
watcher starts out watching the absolute root. -/
def newSiafolderWalk (path cwd : String) (entries : List WalkEntry) : WalkState :=
  entries.foldl
    (fun st e =>
      if e.path = path then st
      else if e.isDir then ⟨st.files, st.dirs ++ [(e.path, false)], st.watched ++ [e.path]⟩
      else ⟨setAssoc st.files e.path (toString e.size), st.dirs, st.watched⟩)
    ⟨[], [], [filepathAbs cwd path]⟩

/-- Modelled from the spec: the staging and production namespace
prefixes and the hardcoded category directory names are flag variables
declared outside the given sources (`main.go` is absent from `src/`);
the spec lists them in the configuration surface.  These are example
values used in concrete evaluations. -/
def exampleCfg : Config :=
  ⟨ "siasync_staging", "siasync_production", false, false, "movies", "tv" ⟩

/-- `exampleCfg` with archive mode on. -/
def exampleArchiveCfg : Config :=
  ⟨ "siasync_staging", "siasync_production", true, false, "movies", "tv" ⟩

/-- A one-file local filesystem used in concrete evaluations. -/
def exampleFs : LocalFs :=
  fun p => if p = "/r/f" then some 3 else none

/-- A client whose delete endpoint always fails. -/
def failDeleteClient : Client :=
  ⟨fun _ _ => none, fun _ => some "delete failed", fun _ => none, fun _ _ => none⟩

/-- A client whose upload endpoint always fails. -/
def failUploadClient : Client :=
  ⟨fun _ _ => some "upload failed", fun _ => none, fun _ => none, fun _ _ => none⟩

/-- A health listing used in concrete evaluations: the query root
itself and two children, one fully repaired and one not. -/
def exampleListing : List DirInfo :=
  [⟨ "siasync_staging/siasync_staging/movies", 2 ⟩,
   ⟨ "siasync_staging/siasync_staging/movies/a", 2 ⟩,
   ⟨ "siasync_staging/siasync_staging/movies/b", 1 ⟩]

theorem str_data_append (s t : String) : (s ++ t).data = s.data ++ t.data := by
  cases s; cases t; rfl

theorem strStartsWith_append (a b : String) : strStartsWith (a ++ b) a = true := by
  simp [strStartsWith, str_data_append, List.isPrefixOf_iff_prefix]

theorem strStartsWith_getSiaPath (cfg : Config) (r : String) :
    strStartsWith (getSiaPath cfg r) (cfg.siaStagingDir ++ "/") = true :=
  strStartsWith_append (cfg.siaStagingDir ++ "/") r

theorem strStartsWith_length_le (s pre : String) (h : strStartsWith s pre = true) :
    pre.data.length ≤ s.data.length :=
  (List.isPrefixOf_iff_prefix.mp h).length_le

theorem ne_of_startsWith_slash (p base : String)
    (h : strStartsWith p (base ++ "/") = true) : p ≠ base := by
  intro he
  subst he
  have hl := strStartsWith_length_le _ _ h
  rw [str_data_append] at hl
  simp at hl

theorem lookupAssoc_setAssoc_self (m : FilesMap) (k v : String) :
    lookupAssoc (setAssoc m k v) k = some v := by
  simp [lookupAssoc, setAssoc, List.find?]

theorem lookupAssoc_eraseAssoc_self (m : FilesMap) (k : String) :
    lookupAssoc (eraseAssoc m k) k = none := by
  have hfind : (eraseAssoc m k).find? (fun p => decide (p.1 = k)) = none := by
    apply List.find?_eq_none.mpr
    intro x hx
    have hmem := List.mem_filter.mp hx
    simp only [decide_eq_true_eq] at hmem ⊢
    simp only [decide_eq_true_eq] at *
    exact hmem.2
  simp [lookupAssoc, hfind]

theorem moveToProduction_eq_of_startsWith (cfg : Config) (p : String)
    (h : strStartsWith p (getSiaPath cfg cfg.siaStagingDir ++ "/") = true) :
    moveToProduction cfg p = some (RemoteCall.rename p
      (joinPath (getSiaPath cfg cfg.siaProdDir)
        (strDrop p (strLen (getSiaPath cfg cfg.siaStagingDir) + 1)))) := by
  have hne : p ≠ getSiaPath cfg cfg.siaStagingDir := ne_of_startsWith_slash _ _ h
  simp [moveToProduction, rebase, hne, h]

theorem processListingGo_eq (cfg : Config) (dirs : List DirInfo)
    (hpre : ∀ d ∈ dirs,
      strStartsWith d.siaPath (getSiaPath cfg cfg.siaStagingDir ++ "/") = true) :
    ∀ i, processListingGo cfg i dirs =
      promotedPerSpecGo (getSiaPath cfg cfg.siaStagingDir) (getSiaPath cfg cfg.siaProdDir)
        i dirs := by
  induction dirs with
  | nil => intro i; rfl
  | cons d rest ih =>
    intro i
    have hd : strStartsWith d.siaPath (getSiaPath cfg cfg.siaStagingDir ++ "/") = true :=
      hpre d (List.mem_cons_self d rest)
    have hrest := fun x hx => hpre x (List.mem_cons_of_mem d hx)
    simp only [processListingGo, promotedPerSpecGo, ih hrest]
    congr 1
    by_cases hi : i = 0
    · simp [hi]
    · by_cases hred : d.aggregateMinRedundancy ≤ 1
      · simp [hi, hred, not_lt.mpr hred]
      · have h1 : 1 < d.aggregateMinRedundancy := lt_of_not_le hred
        simp [hi, hred, h1, moveToProduction_eq_of_startsWith cfg d.siaPath hd]

/-- C1: in a promotion tick, an entry of the health listing is
promoted — a rename from its staging path to the rebased path (the
staging base swapped for the production base, suffix kept) is issued —
exactly when its index is not 0 and its aggregate minimum redundancy
strictly exceeds 1; the entry at index 0 is never promoted. -/
theorem promotion_iff_redundancy (cfg : Config) (dirs : List DirInfo)
    (hpre : ∀ d ∈ dirs,
      strStartsWith d.siaPath (getSiaPath cfg cfg.siaStagingDir ++ "/") = true) :
    processListing cfg dirs =
      promotedPerSpecGo (getSiaPath cfg cfg.siaStagingDir) (getSiaPath cfg cfg.siaProdDir)
        0 dirs :=
  processListingGo_eq cfg dirs hpre 0

/-- Witness for C1 at a concrete listing: the fully-repaired child is
renamed, the query root (index 0, despite redundancy 2) and the
not-yet-repaired child are not. -/
theorem promotion_iff_redundancy_witness :
    (∀ d ∈ exampleListing,
      strStartsWith d.siaPath (getSiaPath exampleCfg exampleCfg.siaStagingDir ++ "/") = true) ∧
    processListing exampleCfg exampleListing =
      promotedPerSpecGo (getSiaPath exampleCfg exampleCfg.siaStagingDir)
        (getSiaPath exampleCfg exampleCfg.siaProdDir) 0 exampleListing :=
  ⟨by decide, promotion_iff_redundancy exampleCfg exampleListing (by decide)⟩

/-- C2: the directory-health fetch for the tv category queries the
same path as the one for the movies category — the hardcoded movies
path (with the staging prefix applied twice), not the tv category's
own staging path. -/
theorem getStagingSiaDir_tv_queries_movies :
    getStagingSiaDirQuery exampleCfg exampleCfg.tvDir =
      getStagingSiaDirQuery exampleCfg exampleCfg.movieDir ∧
    getStagingSiaDirQuery exampleCfg exampleCfg.tvDir =
      "siasync_staging/siasync_staging/movies" ∧
    getStagingSiaDirQuery exampleCfg exampleCfg.tvDir ≠
      joinPath exampleCfg.siaStagingDir exampleCfg.tvDir := by
  decide

/-- C3: `getSiaFiles` returns a remote file that lies under neither
the staging nor the production namespace — its two negated prefix
tests keep every file whose path misses at least one of the two
prefixes, so the listing is not restricted to the two namespaces. -/
theorem getSiaFiles_includes_outside_namespaces :
    getSiaFiles exampleCfg [⟨ "other/x", 5 ⟩] = [⟨ "other/x", 5 ⟩] ∧
    strStartsWith "other/x" (exampleCfg.siaStagingDir ++ "/") = false ∧
    strStartsWith "other/x" (exampleCfg.siaProdDir ++ "/") = false := by
  decide

/-- C4: `getStagingSiaFiles` keeps exactly the files NOT under the
staging prefix, so `uploadChanged` never finds a staging counterpart:
with a local file of size 3 indexed as "10" and a remote staging copy
of size 99, no remote call is issued at all. -/
theorem uploadChanged_misses_staging_counterpart :
    getStagingSiaFiles exampleCfg [⟨ "siasync_staging/f", 99 ⟩, ⟨ "other/b", 7 ⟩] =
      [⟨ "other/b", 7 ⟩] ∧
    (uploadChanged exampleCfg okClient exampleFs "/r" "/" [("/r/f", "10")]
        [⟨ "siasync_staging/f", 99 ⟩]).1 = [] := by
  decide

/-- C9: with a relative root path, the startup walk's root-skip test
(`walkpath == path`, comparing against the pre-`Abs` argument) fails
at the absolute root entry, so the root directory itself is registered
in the `dirs` map alongside the genuine subdirectory. -/
theorem walk_registers_relative_root :
    ("/w/test", false) ∈ (newSiafolderWalk "test" "/w"
      [⟨ "/w/test", true, 0 ⟩, ⟨ "/w/test/sub", true, 0 ⟩,
       ⟨ "/w/test/a.txt", false, 3 ⟩]).dirs ∧
    ("/w/test/sub", false) ∈ (newSiafolderWalk "test" "/w"
      [⟨ "/w/test", true, 0 ⟩, ⟨ "/w/test/sub", true, 0 ⟩,
       ⟨ "/w/test/a.txt", false, 3 ⟩]).dirs := by
  decide

/-- C7 counterexample: when the remote delete errors, `handleRemove`
returns before reaching the map delete — the index entry survives and
the error is reported. -/
theorem handleRemove_keeps_entry_on_delete_error :
    lookupAssoc
      (handleRemove exampleCfg failDeleteClient "/r" [("/r/f", "1")] "/r/f").2.1 "/r/f" =
      some "1" ∧
    (handleRemove exampleCfg failDeleteClient "/r" [("/r/f", "1")] "/r/f").2.2.isSome = true := by
  decide

/-- C5: on a write to an indexed path whose fresh checksum differs
from the recorded one (with resolvable paths and a coöperating
remote), the index is updated to the new checksum and the handler
issues exactly one staging-namespace delete followed by one upload, or
just the one upload in archive mode. -/
theorem handleFileWrite_change_calls (cfg : Config) (cl : Client) (fs : LocalFs)
    (root cwd file r : String) (files : FilesMap) (c old : String)
    (hdry : cfg.dryRun = false)
    (hrel : filepathRel root file = some r)
    (hsum : checksumFile fs file = some c)
    (hold : lookupAssoc files file = some old)
    (hne : old ≠ c)
    (hdel : cl.deleteErr (getSiaPath cfg r) = none)
    (hup : cl.uploadErr (filepathAbs cwd file) (getSiaPath cfg r) = none) :
    (handleFileWrite cfg cl fs root cwd files file).1 =
      (if cfg.archive then [RemoteCall.upload (filepathAbs cwd file) (getSiaPath cfg r)]
       else [RemoteCall.delete (getSiaPath cfg r),
             RemoteCall.upload (filepathAbs cwd file) (getSiaPath cfg r)]) ∧
    lookupAssoc (handleFileWrite cfg cl fs root cwd files file).2.1 file = some c ∧
    (handleFileWrite cfg cl fs root cwd files file).2.2 = none := by
  cases harch : cfg.archive with
  | true =>
    simp [handleFileWrite, handleCreate, hsum, hold, hne, hrel, hdry, hup, harch,
      lookupAssoc_setAssoc_self]
  | false =>
    simp [handleFileWrite, handleRemove, handleCreate, hsum, hold, hne, hrel, hdry,
      hdel, hup, harch, lookupAssoc_setAssoc_self]

/-- Witness for C5 at a concrete input: local file of size 3 indexed
as "1"; the trace is one delete then one upload and the index records
"3". -/
theorem handleFileWrite_change_calls_witness :
    exampleCfg.dryRun = false ∧
    filepathRel "/r" "/r/f" = some "f" ∧
    checksumFile exampleFs "/r/f" = some "3" ∧
    lookupAssoc [("/r/f", "1")] "/r/f" = some "1" ∧
    "1" ≠ "3" ∧
    okClient.deleteErr (getSiaPath exampleCfg "f") = none ∧
    okClient.uploadErr (filepathAbs "/" "/r/f") (getSiaPath exampleCfg "f") = none ∧
    ((handleFileWrite exampleCfg okClient exampleFs "/r" "/" [("/r/f", "1")] "/r/f").1 =
      (if exampleCfg.archive then
        [RemoteCall.upload (filepathAbs "/" "/r/f") (getSiaPath exampleCfg "f")]
       else [RemoteCall.delete (getSiaPath exampleCfg "f"),
             RemoteCall.upload (filepathAbs "/" "/r/f") (getSiaPath exampleCfg "f")]) ∧
     lookupAssoc
       (handleFileWrite exampleCfg okClient exampleFs "/r" "/" [("/r/f", "1")] "/r/f").2.1
       "/r/f" = some "3" ∧
     (handleFileWrite exampleCfg okClient exampleFs "/r" "/" [("/r/f", "1")] "/r/f").2.2 =
       none) :=
  ⟨by decide, by decide, by decide, by decide, by decide, by decide, by decide,
   handleFileWrite_change_calls exampleCfg okClient exampleFs "/r" "/" "/r/f" "f"
     [("/r/f", "1")] "3" "1" (by decide) (by decide) (by decide) (by decide) (by decide)
     (by decide) (by decide)⟩

/-- C7 amended: `handleRemove` drops the index entry when the remote
delete call succeeds (or in dry-run mode, where no delete is issued);
when not dry-running, the delete on the staging-namespace path is the
one call issued, before the index update. -/
theorem handleRemove_drops_entry_on_success (cfg : Config) (cl : Client)
    (root file r : String) (files : FilesMap)
    (hrel : filepathRel root file = some r)
    (hok : cfg.dryRun = true ∨ cl.deleteErr (getSiaPath cfg r) = none) :
    lookupAssoc (handleRemove cfg cl root files file).2.1 file = none ∧
    (cfg.dryRun = false →
      (handleRemove cfg cl root files file).1 = [RemoteCall.delete (getSiaPath cfg r)]) := by
  rcases hok with hdry | hdel
  · simp [handleRemove, hrel, hdry, lookupAssoc_eraseAssoc_self]
  · cases hdry : cfg.dryRun with
    | true => simp [handleRemove, hrel, hdry, lookupAssoc_eraseAssoc_self]
    | false => simp [handleRemove, hrel, hdry, hdel, lookupAssoc_eraseAssoc_self]

/-- Witness for C7's amended statement at a concrete input. -/
theorem handleRemove_drops_entry_on_success_witness :
    filepathRel "/r" "/r/f" = some "f" ∧
    (exampleCfg.dryRun = true ∨ okClient.deleteErr (getSiaPath exampleCfg "f") = none) ∧
    (lookupAssoc (handleRemove exampleCfg okClient "/r" [("/r/f", "1")] "/r/f").2.1 "/r/f" =
      none ∧
     (exampleCfg.dryRun = false →
       (handleRemove exampleCfg okClient "/r" [("/r/f", "1")] "/r/f").1 =
         [RemoteCall.delete (getSiaPath exampleCfg "f")])) :=
  ⟨by decide, by decide,
   handleRemove_drops_entry_on_success exampleCfg okClient "/r" "/r/f" "f" [("/r/f", "1")]
     (by decide) (by decide)⟩

/-- C10: once the relative path resolves, `isFile` never returns an
error, and it reports the file as existing unless the remote query's
error message contains "no file known" — a failed query is thus
indistinguishable from an existing file. -/
theorem isFile_swallows_remote_errors (cl : Client) (root file r : String)
    (hrel : filepathRel root file = some r) :
    (isFile cl root file).2.2 = none ∧
    ((isFile cl root file).2.1 = false ↔
      ∃ msg, cl.fileGetErr r = some msg ∧ strContains msg "no file known" = true) := by
  cases hq : cl.fileGetErr r with
  | none => simp [isFile, hrel, hq]
  | some msg => simp [isFile, hrel, hq]

/-- Witness for C10 at a concrete input. -/
theorem isFile_swallows_remote_errors_witness :
    filepathRel "/r" "/r/f" = some "f" ∧
    ((isFile okClient "/r" "/r/f").2.2 = none ∧
     ((isFile okClient "/r" "/r/f").2.1 = false ↔
       ∃ msg, okClient.fileGetErr "f" = some msg ∧
         strContains msg "no file known" = true)) :=
  ⟨by decide, isFile_swallows_remote_errors okClient "/r" "/r/f" "f" (by decide)⟩

theorem handleCreate_calls (cfg : Config) (cl : Client) (fs : LocalFs)
    (root cwd : String) (files : FilesMap) (file : String) :
    (handleCreate cfg cl fs root cwd files file).1 =
      match filepathRel root file with
      | none => []
      | some relpath =>
        if cfg.dryRun then []
        else [RemoteCall.upload (filepathAbs cwd file) (getSiaPath cfg relpath)] := by
  unfold handleCreate
  cases hrel : filepathRel root file with
  | none => simp
  | some relpath =>
    cases hdry : cfg.dryRun <;>
      cases hup : cl.uploadErr (filepathAbs cwd file) (getSiaPath cfg relpath) <;>
        cases hcs : checksumFile fs file <;>
          simp [hdry, hup, hcs]

/-- C8: when the first create-upload fails, `uploadRetry` issues the
remote existence query, then — exactly when the query reports the file
as existing and archive mode is off — the remove sequence, and then
retries the create exactly once; the retry happens no matter how the
existence query came out. -/
theorem uploadRetry_recovery (cfg : Config) (cl : Client) (fs : LocalFs)
    (root cwd file r : String) (files : FilesMap) (e : String)
    (hrel : filepathRel root file = some r)
    (hfail : (handleCreate cfg cl fs root cwd files file).2.2 = some e) :
    (uploadRetry cfg cl fs root cwd files file).1 =
      (handleCreate cfg cl fs root cwd files file).1 ++ [RemoteCall.fileGet r] ++
      (if (isFile cl root file).2.1 && !cfg.archive then
        (handleRemove cfg cl root files file).1
       else []) ++
      (handleCreate cfg cl fs root cwd files file).1 := by
  unfold uploadRetry
  rcases hx : handleCreate cfg cl fs root cwd files file with ⟨c1, f1, e1⟩
  rw [hx] at hfail
  simp only at hfail
  subst hfail
  rcases hif : isFile cl root file with ⟨c2, ex, e2⟩
  have hc2 : c2 = [RemoteCall.fileGet r] := by
    have h1 := congrArg Prod.fst hif
    simp only [isFile, hrel] at h1
    exact h1.symm
  have hcalls : ∀ m : FilesMap, (handleCreate cfg cl fs root cwd m file).1 = c1 := by
    intro m
    have h2 := congrArg Prod.fst hx
    simp only at h2
    rw [handleCreate_calls, ← h2, handleCreate_calls]
  subst hc2
  cases hcond : ex && !cfg.archive with
  | false =>
    simp only [hcond, Bool.false_eq_true, if_false]
    simp [hx, List.append_assoc]
  | true =>
    rcases hrem : handleRemove cfg cl root files file with ⟨cr, fr, er⟩
    rcases hc5 : handleCreate cfg cl fs root cwd fr file with ⟨c5, f5, e5⟩
    have hc5c : c5 = c1 := by
      have h5 := hcalls fr
      rw [hc5] at h5
      simpa using h5
    simp [hcond, hrem, hc5, hc5c, List.append_assoc]

/-- Witness for C8 at a concrete input: the upload endpoint always
fails, the existence query succeeds (so the file is reported as
existing), archive mode is off — the trace is upload, fileGet, delete,
upload. -/
theorem uploadRetry_recovery_witness :
    filepathRel "/r" "/r/f" = some "f" ∧
    (handleCreate exampleCfg failUploadClient exampleFs "/r" "/" [] "/r/f").2.2 =
      some "error uploading /r/f: upload failed" ∧
    (uploadRetry exampleCfg failUploadClient exampleFs "/r" "/" [] "/r/f").1 =
      (handleCreate exampleCfg failUploadClient exampleFs "/r" "/" [] "/r/f").1 ++
      [RemoteCall.fileGet "f"] ++
      (if (isFile failUploadClient "/r" "/r/f").2.1 && !exampleCfg.archive then
        (handleRemove exampleCfg failUploadClient "/r" [] "/r/f").1
       else []) ++
      (handleCreate exampleCfg failUploadClient exampleFs "/r" "/" [] "/r/f").1 :=
  ⟨by decide, by decide,
   uploadRetry_recovery exampleCfg failUploadClient exampleFs "/r" "/" "/r/f" "f" []
     "error uploading /r/f: upload failed" (by decide) (by decide)⟩

theorem getStagingSiaFiles_no_staging (cfg : Config) (remote : List RemoteFile) :
    ∀ sf ∈ getStagingSiaFiles cfg remote,
      strStartsWith sf.path (cfg.siaStagingDir ++ "/") = false := by
  intro sf hsf
  have h := (List.mem_filter.mp hsf).2
  simpa using h

theorem uploadChangedGo_calls_nil (cfg : Config) (cl : Client) (fs : LocalFs)
    (root cwd : String) (listing : List RemoteFile)
    (hl : ∀ sf ∈ listing, strStartsWith sf.path (cfg.siaStagingDir ++ "/") = false) :
    ∀ (keys : List String) (files : FilesMap),
      (uploadChangedGo cfg cl fs root cwd listing keys files).1 = [] := by
  intro keys
  induction keys with
  | nil => intro files; rfl
  | cons f rest ih =>
    intro files
    cases hrel : filepathRel root f with
    | none => simp [uploadChangedGo, hrel]
    | some r =>
      have hfind : listing.find? (fun sf => decide (sf.path = getSiaPath cfg r)) = none := by
        apply List.find?_eq_none.mpr
        intro sf hsf
        simp only [decide_eq_true_eq]
        intro heq
        have h1 := hl sf hsf
        rw [heq, strStartsWith_getSiaPath] at h1
        exact Bool.noConfusion h1
      simp [uploadChangedGo, hrel, hfind, ih]

theorem uploadNonExistingGo_okClient (cfg : Config) (fs : LocalFs) (root cwd : String)
    (listing : List RemoteFile) (hdry : cfg.dryRun = false) :
    ∀ (keys : List String) (files : FilesMap),
      (∀ f ∈ keys, (filepathRel root f).isSome = true) →
      (∀ f ∈ keys, (fs f).isSome = true) →
      (uploadNonExistingGo cfg okClient fs root cwd listing keys files).2.2 = none ∧
      (∀ c ∈ (uploadNonExistingGo cfg okClient fs root cwd listing keys files).1,
        isUploadCall c = true) ∧
      ∀ f ∈ keys,
        (∃ sf ∈ listing, sf.path = getSiaPath cfg ((filepathRel root f).getD "")) ∨
        RemoteCall.upload (filepathAbs cwd f)
          (getSiaPath cfg ((filepathRel root f).getD "")) ∈
          (uploadNonExistingGo cfg okClient fs root cwd listing keys files).1 := by
  intro keys
  induction keys with
  | nil =>
    intro files _ _
    refine ⟨rfl, ?_, ?_⟩
    · intro c hc
      cases hc
    · intro f hf
      cases hf
  | cons f rest ih =>
    intro files hrelAll hfsAll
    obtain ⟨r, hrel⟩ := Option.isSome_iff_exists.mp (hrelAll f (List.mem_cons_self f rest))
    obtain ⟨n, hn⟩ := Option.isSome_iff_exists.mp (hfsAll f (List.mem_cons_self f rest))
    have hrelRest := fun g hg => hrelAll g (List.mem_cons_of_mem f hg)
    have hfsRest := fun g hg => hfsAll g (List.mem_cons_of_mem f hg)
    cases hex : listing.any (fun sf => decide (sf.path = getSiaPath cfg r)) with
    | true =>
      have hres : uploadNonExistingGo cfg okClient fs root cwd listing (f :: rest) files =
          uploadNonExistingGo cfg okClient fs root cwd listing rest files := by
        simp [uploadNonExistingGo, hrel, hex]
      obtain ⟨sf, hsf, hp⟩ := List.any_eq_true.mp hex
      rcases ih files hrelRest hfsRest with ⟨ih1, ih2, ih3⟩
      rw [hres]
      refine ⟨ih1, ih2, ?_⟩
      intro g hg
      rcases List.mem_cons.mp hg with hgf | hgr
      · subst hgf
        exact Or.inl ⟨sf, hsf, by simpa [hrel] using of_decide_eq_true hp⟩
      · exact ih3 g hgr
    | false =>
      have hcreate : handleCreate cfg okClient fs root cwd files f =
          ([RemoteCall.upload (filepathAbs cwd f) (getSiaPath cfg r)],
           setAssoc files f (toString n), none) := by
        simp [handleCreate, hrel, hdry, okClient, checksumFile, sizeFile, hn]
      rcases hrec : uploadNonExistingGo cfg okClient fs root cwd listing rest
          (setAssoc files f (toString n)) with ⟨cs, files2, err⟩
      have hres : uploadNonExistingGo cfg okClient fs root cwd listing (f :: rest) files =
          (RemoteCall.upload (filepathAbs cwd f) (getSiaPath cfg r) :: cs, files2, err) := by
        simp [uploadNonExistingGo, hrel, hex, hcreate, hrec]
      rcases ih (setAssoc files f (toString n)) hrelRest hfsRest with ⟨ih1, ih2, ih3⟩
      rw [hrec] at ih1 ih2 ih3
      simp only at ih1 ih2 ih3
      rw [hres]
      refine ⟨ih1, ?_, ?_⟩
      · intro c hc
        rcases List.mem_cons.mp hc with h1 | h2
        · subst h1; rfl
        · exact ih2 c h2
      · intro g hg
        rcases List.mem_cons.mp hg with hgf | hgr
        · subst hgf
          right
          simp [hrel]
        · rcases ih3 g hgr with hL | hR
          · exact Or.inl hL
          · exact Or.inr (List.mem_cons_of_mem _ hR)

theorem mem_applyCalls_of_mem (fs : LocalFs) (cs : List RemoteCall)
    (hall : ∀ c ∈ cs, isUploadCall c = true) :
    ∀ (remote : List RemoteFile) (x : RemoteFile), x ∈ remote → x ∈ applyCalls fs remote cs := by
  induction cs with
  | nil => intro remote x hx; exact hx
  | cons c rest ih =>
    intro remote x hx
    have hc := hall c (List.mem_cons_self c rest)
    have hrest := fun d hd => hall d (List.mem_cons_of_mem c hd)
    cases c with
    | upload a p =>
      exact ih hrest (applyCall fs remote (RemoteCall.upload a p)) x
        (List.mem_append_left _ hx)
    | delete p => exact absurd hc (by simp [isUploadCall])
    | rename o nw => exact absurd hc (by simp [isUploadCall])
    | fileGet p => exact absurd hc (by simp [isUploadCall])

theorem exists_mem_applyCalls_of_upload (fs : LocalFs) (cs : List RemoteCall)
    (hall : ∀ c ∈ cs, isUploadCall c = true) (a p : String) :
    ∀ remote : List RemoteFile, RemoteCall.upload a p ∈ cs →
      ∃ rf ∈ applyCalls fs remote cs, rf.path = p := by
  induction cs with
  | nil => intro remote h; cases h
  | cons c rest ih =>
    intro remote hmem
    have hrest := fun d hd => hall d (List.mem_cons_of_mem c hd)
    rcases List.mem_cons.mp hmem with hceq | hmemr
    · rw [← hceq]
      refine ⟨⟨p, (fs a).getD 0⟩, ?_, rfl⟩
      exact mem_applyCalls_of_mem fs rest hrest _ _ (List.mem_append_right _ (by simp))
    · exact ih hrest (applyCall fs remote c) hmemr

theorem uploadNonExistingGo_all_present (cfg : Config) (cl : Client) (fs : LocalFs)
    (root cwd : String) (remoteState : List RemoteFile) :
    ∀ (keys : List String) (files : FilesMap),
      (∀ f ∈ keys, (filepathRel root f).isSome = true) →
      (∀ f ∈ keys, ∃ rf ∈ remoteState,
        rf.path = getSiaPath cfg ((filepathRel root f).getD "")) →
      (∀ f ∈ keys, strStartsWith (getSiaPath cfg ((filepathRel root f).getD ""))
        (cfg.siaProdDir ++ "/") = false) →
      uploadNonExistingGo cfg cl fs root cwd (getSiaFiles cfg remoteState) keys files =
        ([], files, none) := by
  intro keys
  induction keys with
  | nil => intro files _ _ _; rfl
  | cons f rest ih =>
    intro files h1 h2 h3
    obtain ⟨r, hrel⟩ := Option.isSome_iff_exists.mp (h1 f (List.mem_cons_self f rest))
    obtain ⟨rf, hrf, hrfp⟩ := h2 f (List.mem_cons_self f rest)
    have hprod := h3 f (List.mem_cons_self f rest)
    rw [hrel] at hrfp hprod
    simp only [Option.getD_some] at hrfp hprod
    have hmemfilter : rf ∈ getSiaFiles cfg remoteState := by
      apply List.mem_filter.mpr
      exact ⟨hrf, by simp [hrfp, hprod]⟩
    have hex : (getSiaFiles cfg remoteState).any
        (fun sf => decide (sf.path = getSiaPath cfg r)) = true :=
      List.any_eq_true.mpr ⟨rf, hmemfilter, by simp [hrfp]⟩
    have hrec := ih files (fun g hg => h1 g (List.mem_cons_of_mem f hg))
      (fun g hg => h2 g (List.mem_cons_of_mem f hg))
      (fun g hg => h3 g (List.mem_cons_of_mem f hg))
    simp [uploadNonExistingGo, hrel, hex, hrec]

theorem handleCreate_calls_nil_of_dryRun (cfg : Config) (cl : Client) (fs : LocalFs)
    (root cwd : String) (files : FilesMap) (file : String) (h : cfg.dryRun = true) :
    (handleCreate cfg cl fs root cwd files file).1 = [] := by
  rw [handleCreate_calls]
  cases filepathRel root file <;> simp [h]

theorem handleRemove_calls_nil_of_dryRun (cfg : Config) (cl : Client)
    (root : String) (files : FilesMap) (file : String) (h : cfg.dryRun = true) :
    (handleRemove cfg cl root files file).1 = [] := by
  unfold handleRemove
  cases filepathRel root file <;> simp [h]

theorem handleFileWrite_calls_nil_of_dryRun (cfg : Config) (cl : Client) (fs : LocalFs)
    (root cwd : String) (files : FilesMap) (file : String) (h : cfg.dryRun = true) :
    (handleFileWrite cfg cl fs root cwd files file).1 = [] := by
  unfold handleFileWrite
  cases checksumFile fs file with
  | none => rfl
  | some c =>
    cases lookupAssoc files file with
    | none => rfl
    | some old =>
      by_cases heq : old = c
      · simp [heq]
      · simp only [if_neg heq]
        by_cases harch : cfg.archive = false
        · simp only [if_pos harch]
          rcases hr : handleRemove cfg cl root (setAssoc files file c) file with ⟨c1, f2, er⟩
          have hc1 : c1 = [] := by
            have := handleRemove_calls_nil_of_dryRun cfg cl root (setAssoc files file c) file h
            rw [hr] at this
            simpa using this
          cases er with
          | some e => simpa [hr] using hc1
          | none =>
            rcases hcr : handleCreate cfg cl fs root cwd f2 file with ⟨c2, f3, e3⟩
            have hc2 : c2 = [] := by
              have := handleCreate_calls_nil_of_dryRun cfg cl fs root cwd f2 file h
              rw [hcr] at this
              simpa using this
            simp [hr, hcr, hc1, hc2]
        · simp only [if_neg harch]
          exact handleCreate_calls_nil_of_dryRun cfg cl fs root cwd (setAssoc files file c)
            file h

theorem uploadNonExistingGo_calls_nil_of_dryRun (cfg : Config) (cl : Client) (fs : LocalFs)
    (root cwd : String) (listing : List RemoteFile) (h : cfg.dryRun = true) :
    ∀ (keys : List String) (files : FilesMap),
      (uploadNonExistingGo cfg cl fs root cwd listing keys files).1 = [] := by
  intro keys
  induction keys with
  | nil => intro files; rfl
  | cons f rest ih =>
    intro files
    cases hrel : filepathRel root f with
    | none => simp [uploadNonExistingGo, hrel]
    | some r =>
      cases hex : listing.any (fun sf => decide (sf.path = getSiaPath cfg r)) with
      | true => simp [uploadNonExistingGo, hrel, hex, ih]
      | false =>
        rcases hcr : handleCreate cfg cl fs root cwd files f with ⟨c1, f1, e1⟩
        have hc1 : c1 = [] := by
          have := handleCreate_calls_nil_of_dryRun cfg cl fs root cwd files f h
          rw [hcr] at this
          simpa using this
        cases e1 with
        | some e => simp [uploadNonExistingGo, hrel, hex, hcr, hc1]
        | none => simp [uploadNonExistingGo, hrel, hex, hcr, hc1, ih]

theorem uploadChangedGo_calls_nil_of_dryRun (cfg : Config) (cl : Client) (fs : LocalFs)
    (root cwd : String) (listing : List RemoteFile) (h : cfg.dryRun = true) :
    ∀ (keys : List String) (files : FilesMap),
      (uploadChangedGo cfg cl fs root cwd listing keys files).1 = [] := by
  intro keys
  induction keys with
  | nil => intro files; rfl
  | cons f rest ih =>
    intro files
    cases hrel : filepathRel root f with
    | none => simp [uploadChangedGo, hrel]
    | some r =>
      cases hfind : listing.find? (fun sf => decide (sf.path = getSiaPath cfg r)) with
      | none => simp [uploadChangedGo, hrel, hfind, ih]
      | some sf =>
        rcases hw : handleFileWrite cfg cl fs root cwd
            (setAssoc files f (toString sf.filesize)) f with ⟨c1, f1, e1⟩
        have hc1 : c1 = [] := by
          have := handleFileWrite_calls_nil_of_dryRun cfg cl fs root cwd
            (setAssoc files f (toString sf.filesize)) f h
          rw [hw] at this
          simpa using this
        cases e1 with
        | some e => simp [uploadChangedGo, hrel, hfind, hw, hc1]
        | none => simp [uploadChangedGo, hrel, hfind, hw, hc1, ih]

theorem reconcile_calls_nil_of_dryRun (cfg : Config) (cl : Client) (fs : LocalFs)
    (root cwd : String) (files : FilesMap) (remote : List RemoteFile)
    (h : cfg.dryRun = true) :
    (reconcile cfg cl fs root cwd files remote).calls = [] := by
  unfold reconcile uploadNonExisting uploadChanged
  rcases h1 : uploadNonExistingGo cfg cl fs root cwd (getSiaFiles cfg remote)
      (assocKeys files) files with ⟨c1, f1, e1⟩
  have hc1 : c1 = [] := by
    have := uploadNonExistingGo_calls_nil_of_dryRun cfg cl fs root cwd
      (getSiaFiles cfg remote) h (assocKeys files) files
    rw [h1] at this
    simpa using this
  subst hc1
  cases e1 with
  | some e => simp
  | none =>
    rcases h2 : uploadChangedGo cfg cl fs root cwd
        (getStagingSiaFiles cfg (applyCalls fs remote [])) (assocKeys f1) f1
        with ⟨c2, f2, e2⟩
    have hc2 : c2 = [] := by
      have := uploadChangedGo_calls_nil_of_dryRun cfg cl fs root cwd
        (getStagingSiaFiles cfg (applyCalls fs remote [])) h (assocKeys f1) f1
      rw [h2] at this
      simpa using this
    subst hc2
    simp [h2]

/-- C6: running startup reconciliation a second time, against the same
file index rebuilt from the unchanged local tree and against the
remote state left behind by the first run, issues no upload calls
(assuming resolvable keys, statable files, and a staging namespace not
shadowed by the production prefix). -/
theorem reconcile_idempotent (cfg : Config) (fs : LocalFs) (root cwd : String)
    (files : FilesMap) (remote : List RemoteFile)
    (hrelAll : ∀ f ∈ assocKeys files, (filepathRel root f).isSome = true)
    (hfsAll : ∀ f ∈ assocKeys files, (fs f).isSome = true)
    (hprodAll : ∀ f ∈ assocKeys files,
      strStartsWith (getSiaPath cfg ((filepathRel root f).getD ""))
        (cfg.siaProdDir ++ "/") = false) :
    ((reconcile cfg okClient fs root cwd files
        (reconcile cfg okClient fs root cwd files remote).remote).calls).filter
      isUploadCall = [] := by
  cases hdry : cfg.dryRun with
  | true =>
    rw [reconcile_calls_nil_of_dryRun cfg okClient fs root cwd files _ hdry]
    rfl
  | false =>
    rcases hR1u : uploadNonExistingGo cfg okClient fs root cwd (getSiaFiles cfg remote)
        (assocKeys files) files with ⟨c1, files1, e1⟩
    obtain ⟨h1err, h1up, h1cov⟩ :=
      uploadNonExistingGo_okClient cfg fs root cwd (getSiaFiles cfg remote) hdry
        (assocKeys files) files hrelAll hfsAll
    rw [hR1u] at h1err h1up h1cov
    simp only at h1err h1up h1cov
    subst h1err
    have hU1 : uploadNonExisting cfg okClient fs root cwd files remote =
        (c1, files1, none) := by
      unfold uploadNonExisting
      exact hR1u
    rcases hic : uploadChangedGo cfg okClient fs root cwd
        (getStagingSiaFiles cfg (applyCalls fs remote c1)) (assocKeys files1) files1
        with ⟨c2, files2, e2⟩
    have hc2 : c2 = [] := by
      have hx := uploadChangedGo_calls_nil cfg okClient fs root cwd
        (getStagingSiaFiles cfg (applyCalls fs remote c1))
        (getStagingSiaFiles_no_staging cfg (applyCalls fs remote c1))
        (assocKeys files1) files1
      rw [hic] at hx
      simpa using hx
    subst hc2
    have hUC1 : uploadChanged cfg okClient fs root cwd files1 (applyCalls fs remote c1) =
        ([], files2, e2) := by
      unfold uploadChanged
      exact hic
    have hrun1 : reconcile cfg okClient fs root cwd files remote =
        ⟨c1 ++ [], files2, applyCalls fs (applyCalls fs remote c1) [], e2⟩ := by
      unfold reconcile
      rw [hU1]
      simp only [hUC1]
    have hcov2 : ∀ f ∈ assocKeys files, ∃ rf ∈ applyCalls fs remote c1,
        rf.path = getSiaPath cfg ((filepathRel root f).getD "") := by
      intro f hf
      rcases h1cov f hf with ⟨sf, hsf, hp⟩ | hupmem
      · exact ⟨sf, mem_applyCalls_of_mem fs c1 h1up remote sf (List.mem_filter.mp hsf).1, hp⟩
      · exact exists_mem_applyCalls_of_upload fs c1 h1up _ _ remote hupmem
    have hrun2u : uploadNonExistingGo cfg okClient fs root cwd
        (getSiaFiles cfg (applyCalls fs remote c1)) (assocKeys files) files =
        ([], files, none) :=
      uploadNonExistingGo_all_present cfg okClient fs root cwd (applyCalls fs remote c1)
        (assocKeys files) files hrelAll hcov2 hprodAll
    have hU2 : uploadNonExisting cfg okClient fs root cwd files (applyCalls fs remote c1) =
        ([], files, none) := by
      unfold uploadNonExisting
      exact hrun2u
    rcases hic2 : uploadChangedGo cfg okClient fs root cwd
        (getStagingSiaFiles cfg (applyCalls fs (applyCalls fs (applyCalls fs remote c1) []) []))
        (assocKeys files) files with ⟨c3, files3, e3⟩
    have hc3 : c3 = [] := by
      have hx := uploadChangedGo_calls_nil cfg okClient fs root cwd
        (getStagingSiaFiles cfg (applyCalls fs (applyCalls fs (applyCalls fs remote c1) []) []))
        (getStagingSiaFiles_no_staging cfg
          (applyCalls fs (applyCalls fs (applyCalls fs remote c1) []) []))
        (assocKeys files) files
      rw [hic2] at hx
      simpa using hx
    subst hc3
    have hUC2 : uploadChanged cfg okClient fs root cwd files
        (applyCalls fs (applyCalls fs (applyCalls fs remote c1) []) []) =
        ([], files3, e3) := by
      unfold uploadChanged
      exact hic2
    have hrun2 : reconcile cfg okClient fs root cwd files
        (applyCalls fs (applyCalls fs remote c1) []) =
        ⟨[] ++ [], files3,
         applyCalls fs (applyCalls fs (applyCalls fs (applyCalls fs remote c1) []) []) [],
         e3⟩ := by
      unfold reconcile
      rw [show uploadNonExisting cfg okClient fs root cwd files
          (applyCalls fs (applyCalls fs remote c1) []) = ([], files, none) from hU2]
      simp only [hUC2]
    rw [hrun1]
    show ((reconcile cfg okClient fs root cwd files
        (applyCalls fs (applyCalls fs remote c1) [])).calls).filter isUploadCall = []
    rw [hrun2]
    rfl

/-- Witness for C6 at a concrete input: one local file below the root,
an initially empty remote store. -/
theorem reconcile_idempotent_witness :
    (∀ f ∈ assocKeys [("/r/f", "9")], (filepathRel "/r" f).isSome = true) ∧
    (∀ f ∈ assocKeys [("/r/f", "9")], (exampleFs f).isSome = true) ∧
    (∀ f ∈ assocKeys [("/r/f", "9")],
      strStartsWith (getSiaPath exampleCfg ((filepathRel "/r" f).getD ""))
        (exampleCfg.siaProdDir ++ "/") = false) ∧
    ((reconcile exampleCfg okClient exampleFs "/r" "/" [("/r/f", "9")]
        (reconcile exampleCfg okClient exampleFs "/r" "/" [("/r/f", "9")] []).remote).calls).filter
      isUploadCall = [] :=
  ⟨by decide, by decide, by decide,
   reconcile_idempotent exampleCfg exampleFs "/r" "/" [("/r/f", "9")] []
     (by decide) (by decide) (by decide)⟩

end Siasync
